import Mathlib

/-!
Verification development for the Rustorch dense-array library.

The definitions below are a shallow embedding of the two array families of
the repository: the floating-point `Tensor` (crates/tensor: tensor.rs, tns.rs,
ops.rs, simd.rs) and the generic `Matrix<T>` (crates/Matrix/src/matrix.rs).
Element arithmetic is embedded over `ℚ` (exact arithmetic): elementwise
operations are bit-exact in the source as well, and the reassociated
floating-point summations of the parallel/SIMD kernels all denote the same
exact sum over `ℚ`, which is the "equal up to summation-order rounding"
reading of the specification.  Concurrency is embedded by its observable
result: each spawned task writes a disjoint index range of the output
buffer, so the final buffer is the sequential composition of the per-task
writes (the per-element values are independent of task interleaving).
Error strings are embedded as the static part of the formatted Rust message.
-/

namespace Rustorch

/-- Error type of crates/tensor/src/error.rs. -/
inductive TensorError where
  | ShapeMismatch (msg : String)
  | DimensionError (msg : String)
  | IndexOutOfBounds (msg : String)
  | InvalidOperation (msg : String)
  | MatrixMultiplicationError (msg : String)
deriving DecidableEq

def msgDataLen : String := "Data length does not match shape"
def msgDifferentShapes : String := "Tensors have different shapes"
def msgDivisionByZero : String := "Division by zero"
def msgTranspose2D : String := "Transpose only supported for 2D tensors"
def msgSeq2D : String := "Sequential multiplication only supports 2D matrices"
def msgPar2D : String := "Parallel multiplication only supports 2D matrices"
def msgDimsDontMatch : String := "Matrix dimensions do not match"
def msgSimdKinds : String := "SIMD multiplication only supports matrix-vector or matrix-matrix operations"
def msgSimdParKinds : String := "SIMD parallel multiplication only supports matrix-vector or matrix-matrix operations"
def msgExpectedMatVec : String := "Expected matrix and column vector"
def msgColsMustMatch : String := "Matrix cols must match vector rows"
def msgBoth2D : String := "Both tensors must be 2D matrices"

/-- The tensor value: a flat row-major buffer and a shape
(tensor.rs `Tensor`; the tns.rs duplicate additionally carries a
`simd_processor` handle and a `chunk_size`, which we pass explicitly to the
operations that read them).  The stored `rank` field is always
`shape.len()`, so it is embedded as the derived `Tensor.rank`. -/
structure Tensor where
  data : List ℚ
  shape : List ℕ
deriving DecidableEq

namespace Tensor

def rank (t : Tensor) : ℕ := t.shape.length

def size (t : Tensor) : ℕ := t.data.length

/-- tensor.rs `rows()`: `if self.rank >= 1 { self.shape[0] } else { 1 }`. -/
def rows (t : Tensor) : ℕ := if 1 ≤ t.rank then t.shape.getD 0 0 else 1

/-- tensor.rs `cols()`: `if self.rank >= 2 { self.shape[1] } else { 1 }`. -/
def cols (t : Tensor) : ℕ := if 2 ≤ t.rank then t.shape.getD 1 0 else 1

/-- tensor.rs `is_matrix`. -/
def is_matrix (t : Tensor) : Prop := t.rank = 2

instance (t : Tensor) : Decidable t.is_matrix := by unfold is_matrix; infer_instance

/-- tensor.rs `is_column_vector`: rank 2 and `shape[1] == 1`. -/
def is_column_vector (t : Tensor) : Prop := t.rank = 2 ∧ t.shape.getD 1 0 = 1

instance (t : Tensor) : Decidable t.is_column_vector := by
  unfold is_column_vector; infer_instance

/-- tensor.rs / tns.rs `Tensor::new`: validates `data.len() == Π shape`. -/
def new (data : List ℚ) (shape : List ℕ) : Except TensorError Tensor :=
  if data.length ≠ shape.prod then .error (.ShapeMismatch msgDataLen)
  else .ok ⟨data, shape⟩

/-- tensor.rs / tns.rs `Tensor::zeros`: no dimension validation. -/
def zeros (shape : List ℕ) : Tensor := ⟨List.replicate shape.prod 0, shape⟩

/-- tensor.rs / tns.rs `Tensor::ones`: no dimension validation. -/
def ones (shape : List ℕ) : Tensor := ⟨List.replicate shape.prod 1, shape⟩

/-- tensor.rs / tns.rs `Tensor::fill`: no dimension validation. -/
def fill (shape : List ℕ) (value : ℚ) : Tensor :=
  ⟨List.replicate shape.prod value, shape⟩

/-- tensor.rs / tns.rs `check_same_shape`. -/
def check_same_shape (a b : Tensor) : Except TensorError Unit :=
  if a.shape ≠ b.shape then .error (.ShapeMismatch msgDifferentShapes) else .ok ()

/-- tensor.rs `transpose`: for a rank-2 tensor the fresh buffer receives
`data[j*rows + i] = self.data[i*cols + j]` for all `i < rows`, `j < cols`;
position `p` of the new buffer is therefore `self.data[(p % rows)*cols + p/rows]`. -/
def transpose (t : Tensor) : Except TensorError Tensor :=
  if t.rank ≠ 2 then .error (.DimensionError msgTranspose2D)
  else
    let rows := t.shape.getD 0 0
    let cols := t.shape.getD 1 0
    Tensor.new
      ((List.range (rows * cols)).map
        (fun p => t.data.getD ((p % rows) * cols + p / rows) 0))
      [cols, rows]

end Tensor

/-! List access helpers used throughout: `l.getD i 0` is the embedding of the
Rust index expression `l[i]` at the in-bounds call sites of the source. -/

lemma getD_map_range (f : ℕ → ℚ) (n i : ℕ) (h : i < n) :
    ((List.range n).map f).getD i 0 = f i := by
  simp [List.getD_eq_getElem?_getD, List.getElem?_map, List.getElem?_range h]

lemma map_range_getD (l : List ℚ) (n : ℕ) (h : l.length = n) :
    (List.range n).map (fun i => l.getD i 0) = l := by
  apply List.ext_getElem
  · simp [h]
  · intro i h₁ h₂
    have hi : i < n := by simpa using h₁
    have : ((List.range n).map (fun i => l.getD i 0))[i] =
        ((List.range n).map (fun i => l.getD i 0)).getD i 0 := by
      rw [List.getD_eq_getElem?_getD, List.getElem?_eq_getElem h₁]
      rfl
    rw [this, getD_map_range _ _ _ hi, List.getD_eq_getElem?_getD,
      List.getElem?_eq_getElem h₂]
    rfl

lemma getD_take (l : List ℚ) (k i : ℕ) (h : i < k) :
    (l.take k).getD i 0 = l.getD i 0 := by
  simp [List.getD_eq_getElem?_getD, List.getElem?_take, h]

lemma getD_drop (l : List ℚ) (k i : ℕ) :
    (l.drop k).getD i 0 = l.getD (k + i) 0 := by
  simp [List.getD_eq_getElem?_getD, List.getElem?_drop]

lemma getD_replicate (a : ℚ) (n i : ℕ) (h : i < n) :
    (List.replicate n a).getD i 0 = a := by
  simp [List.getD_eq_getElem?_getD, List.getElem?_replicate, h]

/-! ## The parallel partition scheme

ops.rs `multiply_parallel` and simd.rs `matrix_multiply_parallel` /
`matrix_vector_multiply_parallel` split `N` output rows over `T` spawned
threads identically: `chunk = N / T`, thread `t` starts at `t * chunk` and
ends at `start + chunk`, except the last thread which ends at `N`. -/

/-- Start of task `t`'s row range: `t * (N / T)`. -/
def taskStart (N T t : ℕ) : ℕ := t * (N / T)

/-- End of task `t`'s row range: `start + N / T`, except the final task
(`t = T - 1`) which runs to `N`. -/
def taskEnd (N T t : ℕ) : ℕ :=
  if t = T - 1 then N else t * (N / T) + N / T

lemma taskEnd_le (N T t : ℕ) (ht : t < T) : taskEnd N T t ≤ N := by
  unfold taskEnd
  split
  · exact le_rfl
  · rename_i hne
    have h1 : t + 1 ≤ T - 1 := by omega
    calc t * (N / T) + N / T = (t + 1) * (N / T) := by ring
      _ ≤ T * (N / T) := Nat.mul_le_mul_right _ (by omega)
      _ ≤ N := by
          have := Nat.div_mul_le_self N T
          calc T * (N / T) = N / T * T := Nat.mul_comm _ _
            _ ≤ N := this

lemma lt_div_succ_mul (i q : ℕ) (hq : 0 < q) : i < i / q * q + q := by
  have hmod := Nat.div_add_mod i q
  have hlt : i % q < q := Nat.mod_lt _ hq
  have hcomm : q * (i / q) = i / q * q := Nat.mul_comm _ _
  omega

lemma task_cover (N T i : ℕ) (hT : 1 ≤ T) (hi : i < N) :
    ∃ t, t < T ∧ taskStart N T t ≤ i ∧ i < taskEnd N T t := by
  by_cases hq : N / T = 0
  · exact ⟨T - 1, by omega, by simp [taskStart, hq], by simp [taskEnd, hq, hi]⟩
  · have hq0 : 0 < N / T := Nat.pos_of_ne_zero hq
    by_cases hd : i / (N / T) < T - 1
    · refine ⟨i / (N / T), by omega, ?_, ?_⟩
      · simpa [taskStart] using Nat.div_mul_le_self i (N / T)
      · simp only [taskEnd, if_neg (by omega : ¬ i / (N / T) = T - 1)]
        exact lt_div_succ_mul i (N / T) hq0
    · refine ⟨T - 1, by omega, ?_, by simp [taskEnd, hi]⟩
      have h1 : T - 1 ≤ i / (N / T) := by omega
      have h2 : (T - 1) * (N / T) ≤ i / (N / T) * (N / T) :=
        Nat.mul_le_mul_right _ h1
      have h3 := Nat.div_mul_le_self i (N / T)
      simpa [taskStart] using le_trans h2 h3

lemma task_ordered_disjoint (N T t₁ t₂ : ℕ) (h12 : t₁ < t₂) (h2 : t₂ < T) :
    taskEnd N T t₁ ≤ taskStart N T t₂ := by
  have hne : ¬ t₁ = T - 1 := by omega
  simp only [taskEnd, if_neg hne, taskStart]
  calc t₁ * (N / T) + N / T = (t₁ + 1) * (N / T) := by ring
    _ ≤ t₂ * (N / T) := Nat.mul_le_mul_right _ (by omega)

/-! ## Observable semantics of the disjoint-range concurrent writes

Each spawned thread of the parallel kernels writes cells `(i, j)` for `i` in
its row range and `j < n` through a shared raw pointer at flat index
`i*n + j`.  The written index sets are disjoint across threads, so the final
buffer does not depend on the interleaving; it equals the left fold of the
per-task writes over the zero-initialised buffer. -/

/-- One task's writes: rows `[s, e)` of an `n`-column output receive
`cell i j` at flat index `i*n + j`.  For `n > 0` the flat index `p` is
written exactly when `s ≤ p / n < e`. -/
def taskWrites (n s e : ℕ) (cell : ℕ → ℕ → ℚ) (buf : ℕ → ℚ) : ℕ → ℚ :=
  fun p => if 0 < n ∧ s ≤ p / n ∧ p / n < e then cell (p / n) (p % n) else buf p

/-- The joined output buffer of all `T` tasks (zero-initialised, as the
source allocates `vec![0.0; ...]`). -/
def parallelBuffer (m n T : ℕ) (cell : ℕ → ℕ → ℚ) : ℕ → ℚ :=
  (List.range T).foldl
    (fun buf t => taskWrites n (taskStart m T t) (taskEnd m T t) cell buf)
    (fun _ => 0)

lemma foldl_taskWrites_apply (n : ℕ) (cell : ℕ → ℕ → ℚ) (s e : ℕ → ℕ)
    (ts : List ℕ) (b0 : ℕ → ℚ) (p : ℕ) :
    (ts.foldl (fun buf t => taskWrites n (s t) (e t) cell buf) b0) p
      = if ∃ t ∈ ts, 0 < n ∧ s t ≤ p / n ∧ p / n < e t
        then cell (p / n) (p % n) else b0 p := by
  induction ts generalizing b0 with
  | nil => simp
  | cons t ts ih =>
    rw [List.foldl_cons, ih]
    by_cases hhead : 0 < n ∧ s t ≤ p / n ∧ p / n < e t
    · by_cases htail : ∃ u ∈ ts, 0 < n ∧ s u ≤ p / n ∧ p / n < e u
      · rw [if_pos htail, if_pos ⟨t, by simp, hhead⟩]
      · rw [if_neg htail, if_pos ⟨t, by simp, hhead⟩]
        simp [taskWrites, hhead]
    · by_cases htail : ∃ u ∈ ts, 0 < n ∧ s u ≤ p / n ∧ p / n < e u
      · obtain ⟨u, hu, hc⟩ := htail
        rw [if_pos ⟨u, hu, hc⟩, if_pos ⟨u, by simp [hu], hc⟩]
      · rw [if_neg htail, if_neg (by
          rintro ⟨u, hu, hc⟩
          rcases List.mem_cons.mp hu with h | h
          · exact hhead (h ▸ hc)
          · exact htail ⟨u, h, hc⟩)]
        simp [taskWrites, hhead]

/-- For any in-range flat index the joined buffer holds the cell value:
the partition covers every row and the ranges are disjoint. -/
lemma parallelBuffer_apply (m n T : ℕ) (cell : ℕ → ℕ → ℚ)
    (hT : 1 ≤ T) (p : ℕ) (hp : p < m * n) :
    parallelBuffer m n T cell p = cell (p / n) (p % n) := by
  have hn : 0 < n := by
    rcases Nat.eq_zero_or_pos n with h | h
    · subst h; simp at hp
    · exact h
  have hrow : p / n < m := (Nat.div_lt_iff_lt_mul hn).mpr (by omega)
  obtain ⟨t, ht, hst, hend⟩ := task_cover m T (p / n) hT hrow
  unfold parallelBuffer
  rw [foldl_taskWrites_apply]
  exact if_pos ⟨t, List.mem_range.mpr ht, hn, hst, hend⟩

/-! ## The SIMD dot-product kernel

simd.rs accumulates, for each pair of rows, products of complete 8-lane
chunks into a vector accumulator (`elem`), handles the `len % 8` tail with a
scalar loop (`total`), then adds the horizontal sum of the eight lanes to
`total`.  Over exact arithmetic, lane `r` of the accumulator holds
`Σ_{j < len/8} x (8*j + r)`. -/

def simdDotG (x : ℕ → ℚ) (len : ℕ) : ℚ :=
  (∑ t ∈ Finset.range (len % 8), x (8 * (len / 8) + t)) +
    ∑ r ∈ Finset.range 8, ∑ j ∈ Finset.range (len / 8), x (8 * j + r)

lemma sum_range_add_split (f : ℕ → ℚ) (m k : ℕ) :
    ∑ i ∈ Finset.range (m + k), f i
      = (∑ i ∈ Finset.range m, f i) + ∑ j ∈ Finset.range k, f (m + j) := by
  induction k with
  | zero => simp
  | succ k ih => rw [← Nat.add_assoc, Finset.sum_range_succ, ih,
      Finset.sum_range_succ, add_assoc]

lemma sum_range_mul_eight (f : ℕ → ℚ) (c : ℕ) :
    ∑ i ∈ Finset.range (8 * c), f i
      = ∑ j ∈ Finset.range c, ∑ r ∈ Finset.range 8, f (8 * j + r) := by
  induction c with
  | zero => simp
  | succ c ih =>
    have h8 : 8 * (c + 1) = 8 * c + 8 := by ring
    rw [h8, sum_range_add_split, ih,
      Finset.sum_range_succ (fun j => ∑ r ∈ Finset.range 8, f (8 * j + r)) c]

/-- The SIMD dot product equals the plain left-to-right dot product: the
lane accumulation plus tail is a reassociation of the same sum. -/
lemma simdDotG_eq (x : ℕ → ℚ) (len : ℕ) :
    simdDotG x len = ∑ i ∈ Finset.range len, x i := by
  unfold simdDotG
  have hsplit := Nat.div_add_mod len 8
  calc (∑ t ∈ Finset.range (len % 8), x (8 * (len / 8) + t)) +
        ∑ r ∈ Finset.range 8, ∑ j ∈ Finset.range (len / 8), x (8 * j + r)
      = (∑ t ∈ Finset.range (len % 8), x (8 * (len / 8) + t)) +
        ∑ j ∈ Finset.range (len / 8), ∑ r ∈ Finset.range 8, x (8 * j + r) := by
        rw [Finset.sum_comm]
    _ = (∑ t ∈ Finset.range (len % 8), x (8 * (len / 8) + t)) +
        ∑ i ∈ Finset.range (8 * (len / 8)), x i := by
        rw [sum_range_mul_eight]
    _ = ∑ i ∈ Finset.range (8 * (len / 8) + len % 8), x i := by
        rw [sum_range_add_split]; exact (add_comm _ _)
    _ = ∑ i ∈ Finset.range len, x i := by rw [hsplit]

/-! ## The four multiply strategies (ops.rs and simd.rs) -/

/-- lib.rs `ExecutionMode`. -/
inductive ExecutionMode where
  | Sequential
  | Parallel
  | SIMD
  | ParallelSIMD
deriving DecidableEq

namespace Ops

/-- The inner dot product of the triple loop:
`sum += a[i*a_cols + k] * b[k*b_cols + j]` for `k < a.cols()`. -/
def mulCell (a b : Tensor) (i j : ℕ) : ℚ :=
  ∑ k ∈ Finset.range a.cols,
    a.data.getD (i * a.cols + k) 0 * b.data.getD (k * b.cols + j) 0

/-- ops.rs `multiply_sequential`: validate, then the classic triple loop
writing `result[i * other.cols() + j]`; position `p` of the flat output is
cell `(p / b.cols, p % b.cols)`. -/
def multiply_sequential (a b : Tensor) : Except TensorError Tensor :=
  if ¬ (a.is_matrix ∧ b.is_matrix) then .error (.DimensionError msgSeq2D)
  else if a.shape.getD 1 0 ≠ b.shape.getD 0 0 then
    .error (.ShapeMismatch msgDimsDontMatch)
  else
    Tensor.new
      ((List.range (a.rows * b.cols)).map
        (fun p => mulCell a b (p / b.cols) (p % b.cols)))
      [a.rows, b.cols]

/-- ops.rs `multiply_parallel`: same validation; `nb_threads` tasks each
compute the same triple-loop cells for their row block and write them into
the shared zero-initialised buffer through a raw pointer. -/
def multiply_parallel (a b : Tensor) (nb_threads : ℕ) :
    Except TensorError Tensor :=
  if ¬ (a.is_matrix ∧ b.is_matrix) then .error (.DimensionError msgPar2D)
  else if a.shape.getD 1 0 ≠ b.shape.getD 0 0 then
    .error (.ShapeMismatch msgDimsDontMatch)
  else
    Tensor.new
      ((List.range (a.rows * b.cols)).map
        (parallelBuffer a.rows b.cols nb_threads (mulCell a b)))
      [a.rows, b.cols]

end Ops

namespace SIMDOps

/-- simd.rs matrix-vector row dot product: SIMD lanes over
`matrix.data[i*cols ..]` against `vector.data[..]`. -/
def mvCell (a v : Tensor) (i : ℕ) : ℚ :=
  simdDotG (fun t => a.data.getD (i * a.cols + t) 0 * v.data.getD t 0) a.cols

/-- simd.rs `SIMDOps::matrix_vector_multiply`. -/
def matrix_vector_multiply (a v : Tensor) : Except TensorError Tensor :=
  if ¬ (a.is_matrix ∧ v.is_column_vector) then
    .error (.DimensionError msgExpectedMatVec)
  else if a.shape.getD 1 0 ≠ v.shape.getD 0 0 then
    .error (.ShapeMismatch msgColsMustMatch)
  else
    Tensor.new ((List.range a.rows).map (mvCell a v)) [a.rows, 1]

/-- simd.rs `SIMDOps::matrix_vector_multiply_parallel`: the row range is
split over `nb_threads` tasks (same partition as ops.rs), each writing
`res[k] = mvCell k` through a raw pointer. -/
def matrix_vector_multiply_parallel (a v : Tensor) (nb_threads : ℕ) :
    Except TensorError Tensor :=
  if ¬ (a.is_matrix ∧ v.is_column_vector) then
    .error (.DimensionError msgExpectedMatVec)
  else if a.shape.getD 1 0 ≠ v.shape.getD 0 0 then
    .error (.ShapeMismatch msgColsMustMatch)
  else
    Tensor.new
      ((List.range a.rows).map
        (parallelBuffer a.rows 1 nb_threads (fun i _ => mvCell a v i)))
      [a.rows, 1]

/-- The per-cell dot product of the SIMD matrix multiply, taken against the
pre-transposed right operand: lanes over `a.data[i*a.cols ..]` and
`bT.data[k*bT.cols ..]`. -/
def mmCell (a bT : Tensor) (i k : ℕ) : ℚ :=
  simdDotG
    (fun t => a.data.getD (i * a.cols + t) 0 * bT.data.getD (k * bT.cols + t) 0)
    a.cols

/-- simd.rs `SIMDOps::matrix_multiply`: validate, transpose `b` once, then
per output cell run the SIMD dot product of an `a` row against a
`transposed` row. -/
def matrix_multiply (a b : Tensor) : Except TensorError Tensor :=
  if ¬ (a.is_matrix ∧ b.is_matrix) then .error (.DimensionError msgBoth2D)
  else if a.shape.getD 1 0 ≠ b.shape.getD 0 0 then
    .error (.ShapeMismatch msgDimsDontMatch)
  else do
    let bT ← b.transpose
    Tensor.new
      ((List.range (a.rows * b.cols)).map
        (fun p => mmCell a bT (p / b.cols) (p % b.cols)))
      [a.rows, b.cols]

/-- simd.rs `SIMDOps::matrix_multiply_parallel`: the row partition of
ops.rs combined with the SIMD per-cell dot product. -/
def matrix_multiply_parallel (a b : Tensor) (nb_threads : ℕ) :
    Except TensorError Tensor :=
  if ¬ (a.is_matrix ∧ b.is_matrix) then .error (.DimensionError msgBoth2D)
  else if a.shape.getD 1 0 ≠ b.shape.getD 0 0 then
    .error (.ShapeMismatch msgDimsDontMatch)
  else do
    let bT ← b.transpose
    Tensor.new
      ((List.range (a.rows * b.cols)).map
        (parallelBuffer a.rows b.cols nb_threads (mmCell a bT)))
      [a.rows, b.cols]

end SIMDOps

namespace Ops

/-- ops.rs `multiply_simd`: matrix-vector specialisation when the right
operand is a column vector, otherwise matrix-matrix. -/
def multiply_simd (a b : Tensor) : Except TensorError Tensor :=
  if b.is_column_vector ∧ a.is_matrix then
    SIMDOps.matrix_vector_multiply a b
  else if a.is_matrix ∧ b.is_matrix then
    SIMDOps.matrix_multiply a b
  else .error (.DimensionError msgSimdKinds)

/-- ops.rs `multiply_simd_parallel`. -/
def multiply_simd_parallel (a b : Tensor) (nb_threads : ℕ) :
    Except TensorError Tensor :=
  if b.is_column_vector ∧ a.is_matrix then
    SIMDOps.matrix_vector_multiply_parallel a b nb_threads
  else if a.is_matrix ∧ b.is_matrix then
    SIMDOps.matrix_multiply_parallel a b nb_threads
  else .error (.DimensionError msgSimdParKinds)

/-- ops.rs `Tensor::multiply`: the strategy dispatcher.  The parallel
strategies are dispatched with `nb_threads = 6`. -/
def multiply (a b : Tensor) (mode : ExecutionMode) : Except TensorError Tensor :=
  match mode with
  | .Sequential => multiply_sequential a b
  | .Parallel => multiply_parallel a b 6
  | .SIMD => multiply_simd a b
  | .ParallelSIMD => multiply_simd_parallel a b 6

end Ops

/-! ## Strategy equivalence for multiply -/

lemma Tensor.rows_eq (t : Tensor) (h : t.rank = 2) : t.rows = t.shape.getD 0 0 := by
  simp [Tensor.rows, h]

lemma Tensor.cols_eq (t : Tensor) (h : t.rank = 2) : t.cols = t.shape.getD 1 0 := by
  simp [Tensor.cols, h]

lemma Tensor.shape_pair (t : Tensor) (h : t.rank = 2) :
    t.shape = [t.shape.getD 0 0, t.shape.getD 1 0] := by
  obtain ⟨x, y, hxy⟩ := List.length_eq_two.mp h
  simp [hxy]

lemma Tensor.new_ok (d : List ℚ) (s : List ℕ) (h : d.length = s.prod) :
    Tensor.new d s = .ok ⟨d, s⟩ := by
  simp [Tensor.new, h]

/-- The successful value of the tensor transpose. -/
def transposeResult (t : Tensor) : Tensor :=
  ⟨(List.range (t.shape.getD 0 0 * t.shape.getD 1 0)).map
      (fun p => t.data.getD
        ((p % t.shape.getD 0 0) * t.shape.getD 1 0 + p / t.shape.getD 0 0) 0),
   [t.shape.getD 1 0, t.shape.getD 0 0]⟩

lemma Tensor.transpose_ok (t : Tensor) (h : t.rank = 2) :
    t.transpose = .ok (transposeResult t) := by
  rw [Tensor.transpose, if_neg (by simp [h])]
  exact Tensor.new_ok _ _ (by simp [Nat.mul_comm])

lemma Tensor.transpose_data_getD (b bT : Tensor) (h : b.rank = 2)
    (hT : b.transpose = .ok bT) (j t : ℕ)
    (hj : j < b.shape.getD 1 0) (ht : t < b.shape.getD 0 0) :
    bT.data.getD (j * b.shape.getD 0 0 + t) 0
      = b.data.getD (t * b.shape.getD 1 0 + j) 0 := by
  rw [Tensor.transpose_ok b h] at hT
  obtain rfl : bT = transposeResult b := (Except.ok.injEq _ _).mp hT.symm
  simp only [transposeResult]
  have hr : 0 < b.shape.getD 0 0 := by omega
  have hbound : j * b.shape.getD 0 0 + t
      < b.shape.getD 0 0 * b.shape.getD 1 0 := by
    have h1 : j * b.shape.getD 0 0 + t < (j + 1) * b.shape.getD 0 0 := by
      have hd : (j + 1) * b.shape.getD 0 0
          = j * b.shape.getD 0 0 + b.shape.getD 0 0 := by ring
      omega
    have h2 : (j + 1) * b.shape.getD 0 0
        ≤ b.shape.getD 1 0 * b.shape.getD 0 0 :=
      Nat.mul_le_mul_right _ (by omega)
    calc j * b.shape.getD 0 0 + t < (j + 1) * b.shape.getD 0 0 := h1
      _ ≤ b.shape.getD 1 0 * b.shape.getD 0 0 := h2
      _ = b.shape.getD 0 0 * b.shape.getD 1 0 := Nat.mul_comm _ _
  rw [getD_map_range _ _ _ hbound]
  have hmod : (j * b.shape.getD 0 0 + t) % b.shape.getD 0 0 = t := by
    rw [Nat.mul_comm j _, Nat.mul_add_mod]
    exact Nat.mod_eq_of_lt ht
  have hdiv : (j * b.shape.getD 0 0 + t) / b.shape.getD 0 0 = j := by
    rw [Nat.mul_comm j _, Nat.mul_add_div hr, Nat.div_eq_of_lt ht]
    rfl
  rw [hmod, hdiv]

lemma Tensor.transpose_cols (b bT : Tensor) (h : b.rank = 2)
    (hT : b.transpose = .ok bT) : bT.cols = b.shape.getD 0 0 := by
  rw [Tensor.transpose_ok b h] at hT
  obtain rfl : bT = transposeResult b := (Except.ok.injEq _ _).mp hT.symm
  simp [Tensor.cols, Tensor.rank, transposeResult]

/-- The canonical multiply result: the sequential triple-loop output. -/
def seqResult (a b : Tensor) : Tensor :=
  ⟨(List.range (a.rows * b.cols)).map
      (fun p => Ops.mulCell a b (p / b.cols) (p % b.cols)),
   [a.rows, b.cols]⟩

lemma multiply_sequential_eq (a b : Tensor) (h2a : a.rank = 2)
    (h2b : b.rank = 2) (hc : a.shape.getD 1 0 = b.shape.getD 0 0) :
    Ops.multiply_sequential a b = .ok (seqResult a b) := by
  rw [Ops.multiply_sequential, if_neg (by simp [Tensor.is_matrix, h2a, h2b]),
    if_neg (by simpa using hc)]
  exact Tensor.new_ok _ _ (by simp)

lemma multiply_parallel_eq (a b : Tensor) (T : ℕ) (hT : 1 ≤ T)
    (h2a : a.rank = 2) (h2b : b.rank = 2)
    (hc : a.shape.getD 1 0 = b.shape.getD 0 0) :
    Ops.multiply_parallel a b T = .ok (seqResult a b) := by
  rw [Ops.multiply_parallel, if_neg (by simp [Tensor.is_matrix, h2a, h2b]),
    if_neg (by simpa using hc)]
  have hdata : (List.range (a.rows * b.cols)).map
      (parallelBuffer a.rows b.cols T (Ops.mulCell a b))
      = (List.range (a.rows * b.cols)).map
        (fun p => Ops.mulCell a b (p / b.cols) (p % b.cols)) := by
    apply List.map_congr_left
    intro p hp
    exact parallelBuffer_apply _ _ _ _ hT p (List.mem_range.mp hp)
  rw [hdata]
  exact Tensor.new_ok _ _ (by simp)

lemma mv_cell_eq (a v : Tensor) (h2v : v.rank = 2)
    (hv1 : v.shape.getD 1 0 = 1) (i : ℕ) :
    SIMDOps.mvCell a v i = Ops.mulCell a v i 0 := by
  have hvcols : v.cols = 1 := by rw [Tensor.cols_eq v h2v]; exact hv1
  rw [SIMDOps.mvCell, simdDotG_eq]
  unfold Ops.mulCell
  refine Finset.sum_congr rfl (fun k _ => ?_)
  rw [hvcols, Nat.mul_one, Nat.add_zero]

lemma mv_data_eq (a v : Tensor) (h2v : v.rank = 2)
    (hv1 : v.shape.getD 1 0 = 1) :
    (List.range (a.rows * v.cols)).map
        (fun p => Ops.mulCell a v (p / v.cols) (p % v.cols))
      = (List.range a.rows).map (SIMDOps.mvCell a v) := by
  have hvcols : v.cols = 1 := by rw [Tensor.cols_eq v h2v]; exact hv1
  rw [hvcols, Nat.mul_one]
  refine List.map_congr_left (fun p _ => ?_)
  rw [Nat.div_one, Nat.mod_one, mv_cell_eq a v h2v hv1 p]

lemma mm_cell_eq (a b bT : Tensor) (h2a : a.rank = 2) (h2b : b.rank = 2)
    (hc : a.shape.getD 1 0 = b.shape.getD 0 0)
    (hT : b.transpose = .ok bT) (i k : ℕ) (hk : k < b.cols) :
    SIMDOps.mmCell a bT i k = Ops.mulCell a b i k := by
  rw [SIMDOps.mmCell, simdDotG_eq]
  unfold Ops.mulCell
  refine Finset.sum_congr rfl (fun t ht => ?_)
  have hta : t < a.cols := Finset.mem_range.mp ht
  have htr : t < b.shape.getD 0 0 := by
    rw [← hc, ← Tensor.cols_eq a h2a]; exact hta
  have hkb : k < b.shape.getD 1 0 := by rw [← Tensor.cols_eq b h2b]; exact hk
  rw [Tensor.transpose_cols b bT h2b hT,
    Tensor.transpose_data_getD b bT h2b hT k t hkb htr,
    ← Tensor.cols_eq b h2b]

lemma matrix_vector_multiply_eq (a v : Tensor) (h2a : a.rank = 2)
    (hvc : v.is_column_vector) (hc : a.shape.getD 1 0 = v.shape.getD 0 0) :
    SIMDOps.matrix_vector_multiply a v = .ok (seqResult a v) := by
  obtain ⟨h2v, hv1⟩ := hvc
  have hvcols : v.cols = 1 := by rw [Tensor.cols_eq v h2v]; exact hv1
  rw [SIMDOps.matrix_vector_multiply, if_neg (not_not_intro ⟨h2a, h2v, hv1⟩),
    if_neg (by simpa using hc), Tensor.new_ok _ _ (by simp)]
  refine congrArg Except.ok ?_
  show Tensor.mk _ _ = Tensor.mk _ _
  rw [mv_data_eq a v h2v hv1, hvcols]

lemma matrix_vector_multiply_parallel_eq (a v : Tensor) (T : ℕ) (hT : 1 ≤ T)
    (h2a : a.rank = 2) (hvc : v.is_column_vector)
    (hc : a.shape.getD 1 0 = v.shape.getD 0 0) :
    SIMDOps.matrix_vector_multiply_parallel a v T = .ok (seqResult a v) := by
  obtain ⟨h2v, hv1⟩ := hvc
  have hvcols : v.cols = 1 := by rw [Tensor.cols_eq v h2v]; exact hv1
  rw [SIMDOps.matrix_vector_multiply_parallel,
    if_neg (not_not_intro ⟨h2a, h2v, hv1⟩),
    if_neg (by simpa using hc), Tensor.new_ok _ _ (by simp)]
  refine congrArg Except.ok ?_
  show Tensor.mk _ _ = Tensor.mk _ _
  rw [mv_data_eq a v h2v hv1, hvcols]
  refine congrArg (fun d => Tensor.mk d [a.rows, 1]) ?_
  refine List.map_congr_left (fun p hp => ?_)
  have hp' : p < a.rows * 1 := by
    rw [Nat.mul_one]; exact List.mem_range.mp hp
  rw [parallelBuffer_apply a.rows 1 T _ hT p hp', Nat.div_one]

lemma matrix_multiply_eq (a b : Tensor) (h2a : a.rank = 2) (h2b : b.rank = 2)
    (hc : a.shape.getD 1 0 = b.shape.getD 0 0) :
    SIMDOps.matrix_multiply a b = .ok (seqResult a b) := by
  rw [SIMDOps.matrix_multiply, if_neg (not_not_intro ⟨h2a, h2b⟩),
    if_neg (by simpa using hc)]
  have hTok := Tensor.transpose_ok b h2b
  rw [hTok]
  show Tensor.new _ _ = _
  rw [Tensor.new_ok _ _ (by simp)]
  refine congrArg Except.ok ?_
  show Tensor.mk _ _ = Tensor.mk _ _
  refine congrArg (fun d => Tensor.mk d [a.rows, b.cols]) ?_
  refine List.map_congr_left (fun p hp => ?_)
  have hn : 0 < b.cols := by
    rcases Nat.eq_zero_or_pos b.cols with h | h
    · rw [h, Nat.mul_zero] at hp; simp at hp
    · exact h
  exact mm_cell_eq a b _ h2a h2b hc hTok _ _ (Nat.mod_lt _ hn)

lemma matrix_multiply_parallel_eq (a b : Tensor) (T : ℕ) (hT : 1 ≤ T)
    (h2a : a.rank = 2) (h2b : b.rank = 2)
    (hc : a.shape.getD 1 0 = b.shape.getD 0 0) :
    SIMDOps.matrix_multiply_parallel a b T = .ok (seqResult a b) := by
  rw [SIMDOps.matrix_multiply_parallel, if_neg (not_not_intro ⟨h2a, h2b⟩),
    if_neg (by simpa using hc)]
  have hTok := Tensor.transpose_ok b h2b
  rw [hTok]
  show Tensor.new _ _ = _
  rw [Tensor.new_ok _ _ (by simp)]
  refine congrArg Except.ok ?_
  show Tensor.mk _ _ = Tensor.mk _ _
  refine congrArg (fun d => Tensor.mk d [a.rows, b.cols]) ?_
  refine List.map_congr_left (fun p hp => ?_)
  have hp' := List.mem_range.mp hp
  have hn : 0 < b.cols := by
    rcases Nat.eq_zero_or_pos b.cols with h | h
    · rw [h, Nat.mul_zero] at hp'; omega
    · exact h
  rw [parallelBuffer_apply a.rows b.cols T _ hT p hp']
  exact mm_cell_eq a b _ h2a h2b hc hTok _ _ (Nat.mod_lt _ hn)

/-- Every strategy of the ops.rs dispatcher produces the sequential
triple-loop result on valid rank-2 operands. -/
lemma multiply_eq_seq (a b : Tensor) (mode : ExecutionMode)
    (h2a : a.rank = 2) (h2b : b.rank = 2)
    (hc : a.shape.getD 1 0 = b.shape.getD 0 0) :
    Ops.multiply a b mode = .ok (seqResult a b) := by
  cases mode with
  | Sequential => exact multiply_sequential_eq a b h2a h2b hc
  | Parallel => exact multiply_parallel_eq a b 6 (by omega) h2a h2b hc
  | SIMD =>
    show Ops.multiply_simd a b = _
    rw [Ops.multiply_simd]
    by_cases hbv : b.is_column_vector
    · rw [if_pos ⟨hbv, h2a⟩]
      exact matrix_vector_multiply_eq a b h2a hbv hc
    · rw [if_neg (by tauto), if_pos ⟨h2a, h2b⟩]
      exact matrix_multiply_eq a b h2a h2b hc
  | ParallelSIMD =>
    show Ops.multiply_simd_parallel a b 6 = _
    rw [Ops.multiply_simd_parallel]
    by_cases hbv : b.is_column_vector
    · rw [if_pos ⟨hbv, h2a⟩]
      exact matrix_vector_multiply_parallel_eq a b 6 (by omega) h2a hbv hc
    · rw [if_neg (by tauto), if_pos ⟨h2a, h2b⟩]
      exact matrix_multiply_parallel_eq a b 6 (by omega) h2a h2b hc

/-! ## The tns.rs elementwise engine

tns.rs dispatches elementwise operations over `ComputeMode`; the
`SimdMultiThread` mode splits the output into `chunk_size` blocks
(`chunk_size = max(1000, num_cpus*100)`, passed here as the `cs` argument)
and runs the `SimdProcessor` slice kernel on each block.  The slice kernel
(simd.rs, HEAD side) processes `len - len % 8` elements in 8-lane vector
steps and the remaining `len % 8` with a scalar loop when AVX2 is detected
(`avx` argument), and falls back to a plain scalar loop otherwise. -/

/-- tns.rs `ComputeMode`. -/
inductive ComputeMode where
  | Single
  | MultiThread
  | SimdMultiThread
deriving DecidableEq

/-- `SimdProcessor::add_slice` / `mul_slice`, generic in the lanewise
operation `f`: the AVX2 path writes the `len - len % 8` prefix by 8-lane
vector ops and the tail by a scalar loop; the fallback path is one scalar
loop. -/
def sliceEw (f : ℚ → ℚ → ℚ) (avx : Bool) (a b : List ℚ) : List ℚ :=
  if avx then
    ((List.range (a.length - a.length % 8)).map
        (fun i => f (a.getD i 0) (b.getD i 0)))
      ++ ((List.range (a.length % 8)).map
        (fun r => f (a.getD (a.length - a.length % 8 + r) 0)
                    (b.getD (a.length - a.length % 8 + r) 0)))
  else (List.range a.length).map (fun i => f (a.getD i 0) (b.getD i 0))

/-- The `par_chunks_mut(chunk_size)` decomposition: chunk `c` covers input
positions `[c*cs, c*cs + cs)` (short at the end) and receives the slice
kernel of the corresponding input windows.  The recursion is fuelled by the
buffer length (each step consumes `cs ≥ 1` positions). -/
def chunkedEw (f : ℚ → ℚ → ℚ) (avx : Bool) (cs : ℕ) :
    ℕ → List ℚ → List ℚ → List ℚ
  | 0, _, _ => []
  | fuel + 1, a, b =>
    if a.length = 0 then []
    else sliceEw f avx (a.take cs) (b.take cs)
      ++ chunkedEw f avx cs fuel (a.drop cs) (b.drop cs)

lemma sliceEw_eq (f : ℚ → ℚ → ℚ) (avx : Bool) (a b : List ℚ) :
    sliceEw f avx a b
      = (List.range a.length).map (fun i => f (a.getD i 0) (b.getD i 0)) := by
  unfold sliceEw
  cases avx with
  | false => simp
  | true =>
    simp only [if_pos]
    have hsplit : a.length = (a.length - a.length % 8) + a.length % 8 :=
      (Nat.sub_add_cancel (Nat.mod_le _ _)).symm
    calc _ = (List.range ((a.length - a.length % 8) + a.length % 8)).map
          (fun i => f (a.getD i 0) (b.getD i 0)) := by
          rw [List.range_add, List.map_append, List.map_map]
          rfl
      _ = _ := by rw [← hsplit]

lemma chunkedEw_eq (f : ℚ → ℚ → ℚ) (avx : Bool) (cs : ℕ) (hcs : 0 < cs) :
    ∀ (fuel : ℕ) (a b : List ℚ), a.length ≤ fuel →
      chunkedEw f avx cs fuel a b
        = (List.range a.length).map (fun i => f (a.getD i 0) (b.getD i 0)) := by
  intro fuel
  induction fuel with
  | zero =>
    intro a b ha
    have : a.length = 0 := by omega
    rw [chunkedEw, this]
    rfl
  | succ fuel ih =>
    intro a b ha
    rw [chunkedEw]
    by_cases h0 : a.length = 0
    · rw [if_pos h0, h0]; rfl
    · rw [if_neg h0, sliceEw_eq, ih _ _ (by rw [List.length_drop]; omega)]
      simp only [List.length_take, List.length_drop]
      have hsplit : a.length = min cs a.length + (a.length - cs) := by omega
      have h₁ : (List.range (min cs a.length)).map
          (fun i => f ((a.take cs).getD i 0) ((b.take cs).getD i 0))
          = (List.range (min cs a.length)).map
            (fun i => f (a.getD i 0) (b.getD i 0)) := by
        refine List.map_congr_left (fun i hi => ?_)
        have hi' : i < cs := by
          have := List.mem_range.mp hi; omega
        rw [getD_take _ _ _ hi', getD_take _ _ _ hi']
      have h₂ : (List.range (a.length - cs)).map
          (fun i => f ((a.drop cs).getD i 0) ((b.drop cs).getD i 0))
          = (List.range (a.length - cs)).map
            (fun i => f (a.getD (min cs a.length + i) 0)
                        (b.getD (min cs a.length + i) 0)) := by
        refine List.map_congr_left (fun i hi => ?_)
        have hi' := List.mem_range.mp hi
        have hmin : min cs a.length = cs := by omega
        rw [getD_drop, getD_drop, hmin]
      rw [h₁, h₂]
      conv_rhs => rw [hsplit, List.range_add]
      rw [List.map_append, List.map_map]
      rfl

namespace Tns

/-- tns.rs `Tensor::add`.  `Single` is the index loop, `MultiThread` the
parallel per-index map over the zero-initialised `shape.prod`-sized output,
`SimdMultiThread` the chunked SIMD slice kernel. -/
def add (a b : Tensor) (cs : ℕ) (avx : Bool) (mode : ComputeMode) :
    Except TensorError Tensor :=
  match a.check_same_shape b with
  | .error e => .error e
  | .ok _ =>
    .ok ⟨match mode with
      | .Single => (List.range a.data.length).map
          (fun i => a.data.getD i 0 + b.data.getD i 0)
      | .MultiThread => (List.range a.shape.prod).map
          (fun i => a.data.getD i 0 + b.data.getD i 0)
      | .SimdMultiThread => chunkedEw (· + ·) avx cs a.data.length a.data b.data,
      a.shape⟩

/-- tns.rs `Tensor::sub`: the `SimdMultiThread` arm falls back to the
single-threaded loop (no SIMD subtraction is implemented). -/
def sub (a b : Tensor) (cs : ℕ) (avx : Bool) (mode : ComputeMode) :
    Except TensorError Tensor :=
  match a.check_same_shape b with
  | .error e => .error e
  | .ok _ =>
    .ok ⟨match mode with
      | .Single => (List.range a.data.length).map
          (fun i => a.data.getD i 0 - b.data.getD i 0)
      | .MultiThread => (List.range a.shape.prod).map
          (fun i => a.data.getD i 0 - b.data.getD i 0)
      | .SimdMultiThread => (List.range a.data.length).map
          (fun i => a.data.getD i 0 - b.data.getD i 0),
      a.shape⟩

/-- tns.rs `Tensor::multiply` (elementwise Hadamard product). -/
def multiply (a b : Tensor) (cs : ℕ) (avx : Bool) (mode : ComputeMode) :
    Except TensorError Tensor :=
  match a.check_same_shape b with
  | .error e => .error e
  | .ok _ =>
    .ok ⟨match mode with
      | .Single => (List.range a.data.length).map
          (fun i => a.data.getD i 0 * b.data.getD i 0)
      | .MultiThread => (List.range a.shape.prod).map
          (fun i => a.data.getD i 0 * b.data.getD i 0)
      | .SimdMultiThread => chunkedEw (· * ·) avx cs a.data.length a.data b.data,
      a.shape⟩

/-- tns.rs `Tensor::divide`: every mode rejects a divisor containing `0.0`
before producing output; `Single` tests each `other.data[i]` of the loop
range, the threaded modes scan all of `other.data` up front. -/
def divide (a b : Tensor) (cs : ℕ) (avx : Bool) (mode : ComputeMode) :
    Except TensorError Tensor :=
  match a.check_same_shape b with
  | .error e => .error e
  | .ok _ =>
    match mode with
    | .Single =>
      if ∃ i ∈ List.range a.data.length, b.data.getD i 0 = 0 then
        .error (.InvalidOperation msgDivisionByZero)
      else
        .ok ⟨(List.range a.data.length).map
          (fun i => a.data.getD i 0 / b.data.getD i 0), a.shape⟩
    | .MultiThread =>
      if ∃ x ∈ b.data, x = 0 then .error (.InvalidOperation msgDivisionByZero)
      else
        .ok ⟨(List.range a.shape.prod).map
          (fun i => a.data.getD i 0 / b.data.getD i 0), a.shape⟩
    | .SimdMultiThread =>
      if ∃ x ∈ b.data, x = 0 then .error (.InvalidOperation msgDivisionByZero)
      else
        .ok ⟨(List.range a.data.length).map
          (fun i => a.data.getD i 0 / b.data.getD i 0), a.shape⟩

/-- tns.rs `Tensor::scalar_multiply`: infallible; the SIMD mode multiplies
against the broadcast `scalar_vec = vec![scalar; len]`. -/
def scalar_multiply (a : Tensor) (scalar : ℚ) (cs : ℕ) (avx : Bool)
    (mode : ComputeMode) : Tensor :=
  ⟨match mode with
    | .Single => (List.range a.data.length).map
        (fun i => a.data.getD i 0 * scalar)
    | .MultiThread => (List.range a.shape.prod).map
        (fun i => a.data.getD i 0 * scalar)
    | .SimdMultiThread => chunkedEw (· * ·) avx cs a.data.length a.data
        (List.replicate a.data.length scalar),
   a.shape⟩

/-- tns.rs `Tensor::sum`: a sequential fold in `Single` mode and a parallel
reduction otherwise; over exact arithmetic both denote the sum of the
buffer. -/
def sum (a : Tensor) (mode : ComputeMode) : ℚ :=
  match mode with
  | .Single => a.data.sum
  | .MultiThread => a.data.sum
  | .SimdMultiThread => a.data.sum

end Tns

lemma check_same_shape_ok (a b : Tensor) (h : a.shape = b.shape) :
    a.check_same_shape b = .ok () := by
  simp [Tensor.check_same_shape, h]

lemma tns_add_eq_single (a b : Tensor) (hla : a.data.length = a.shape.prod)
    (hsh : a.shape = b.shape) (cs : ℕ) (hcs : 0 < cs) (avx : Bool)
    (mode : ComputeMode) :
    Tns.add a b cs avx mode = Tns.add a b cs avx .Single := by
  unfold Tns.add
  rw [check_same_shape_ok a b hsh]
  cases mode with
  | Single => rfl
  | MultiThread => rw [← hla]
  | SimdMultiThread =>
    rw [chunkedEw_eq (· + ·) avx cs hcs a.data.length a.data b.data le_rfl]

lemma tns_sub_eq_single (a b : Tensor) (hla : a.data.length = a.shape.prod)
    (hsh : a.shape = b.shape) (cs : ℕ) (avx : Bool) (mode : ComputeMode) :
    Tns.sub a b cs avx mode = Tns.sub a b cs avx .Single := by
  unfold Tns.sub
  rw [check_same_shape_ok a b hsh]
  cases mode with
  | Single => rfl
  | MultiThread => rw [← hla]
  | SimdMultiThread => rfl

lemma tns_multiply_eq_single (a b : Tensor)
    (hla : a.data.length = a.shape.prod) (hsh : a.shape = b.shape)
    (cs : ℕ) (hcs : 0 < cs) (avx : Bool) (mode : ComputeMode) :
    Tns.multiply a b cs avx mode = Tns.multiply a b cs avx .Single := by
  unfold Tns.multiply
  rw [check_same_shape_ok a b hsh]
  cases mode with
  | Single => rfl
  | MultiThread => rw [← hla]
  | SimdMultiThread =>
    rw [chunkedEw_eq (· * ·) avx cs hcs a.data.length a.data b.data le_rfl]

lemma tns_scalar_multiply_eq_single (a : Tensor) (s : ℚ)
    (hla : a.data.length = a.shape.prod) (cs : ℕ) (hcs : 0 < cs) (avx : Bool)
    (mode : ComputeMode) :
    Tns.scalar_multiply a s cs avx mode = Tns.scalar_multiply a s cs avx .Single := by
  unfold Tns.scalar_multiply
  cases mode with
  | Single => rfl
  | MultiThread => rw [← hla]
  | SimdMultiThread =>
    rw [chunkedEw_eq (· * ·) avx cs hcs a.data.length a.data _ le_rfl]
    refine congrArg (fun d => Tensor.mk d a.shape) ?_
    refine List.map_congr_left (fun i hi => ?_)
    rw [getD_replicate s a.data.length i (List.mem_range.mp hi)]

/-- C1: for every pair of tensors valid for the operation, the execution
strategies of the same arithmetic operation produce observationally
equivalent results.  Over the exact-arithmetic embedding the agreement is
exact: the four `ExecutionMode` variants of matrix multiplication all
return the sequential triple-loop result, and the `ComputeMode` variants of
the elementwise operations (add, sub, hadamard multiply, scale) and of the
sum reduction agree on any chunk size `cs ≥ 1` and either SIMD capability. -/
theorem strategy_observational_equivalence (a b : Tensor)
    (hla : a.data.length = a.shape.prod)
    (hlb : b.data.length = b.shape.prod) :
    (a.rank = 2 → b.rank = 2 → a.shape.getD 1 0 = b.shape.getD 0 0 →
      ∀ m₁ m₂ : ExecutionMode, Ops.multiply a b m₁ = Ops.multiply a b m₂)
    ∧ (a.shape = b.shape →
      ∀ cs : ℕ, 0 < cs → ∀ (avx : Bool) (m₁ m₂ : ComputeMode),
        Tns.add a b cs avx m₁ = Tns.add a b cs avx m₂
        ∧ Tns.sub a b cs avx m₁ = Tns.sub a b cs avx m₂
        ∧ Tns.multiply a b cs avx m₁ = Tns.multiply a b cs avx m₂)
    ∧ (∀ (s : ℚ) (cs : ℕ), 0 < cs → ∀ (avx : Bool) (m₁ m₂ : ComputeMode),
        Tns.scalar_multiply a s cs avx m₁ = Tns.scalar_multiply a s cs avx m₂)
    ∧ (∀ m₁ m₂ : ComputeMode, Tns.sum a m₁ = Tns.sum a m₂) := by
  refine ⟨?_, ?_, ?_, ?_⟩
  · intro h2a h2b hc m₁ m₂
    rw [multiply_eq_seq a b m₁ h2a h2b hc, multiply_eq_seq a b m₂ h2a h2b hc]
  · intro hsh cs hcs avx m₁ m₂
    refine ⟨?_, ?_, ?_⟩
    · rw [tns_add_eq_single a b hla hsh cs hcs avx m₁,
        tns_add_eq_single a b hla hsh cs hcs avx m₂]
    · rw [tns_sub_eq_single a b hla hsh cs avx m₁,
        tns_sub_eq_single a b hla hsh cs avx m₂]
    · rw [tns_multiply_eq_single a b hla hsh cs hcs avx m₁,
        tns_multiply_eq_single a b hla hsh cs hcs avx m₂]
  · intro s cs hcs avx m₁ m₂
    rw [tns_scalar_multiply_eq_single a s hla cs hcs avx m₁,
      tns_scalar_multiply_eq_single a s hla cs hcs avx m₂]
  · intro m₁ m₂
    cases m₁ <;> cases m₂ <;> rfl

/-- Scenario operands `[[1,2],[3,4]]` and `[[5,6],[7,8]]`. -/
def tA : Tensor := ⟨[1, 2, 3, 4], [2, 2]⟩

def tB : Tensor := ⟨[5, 6, 7, 8], [2, 2]⟩

/-- Witness for C1 at the concrete 2-by-2 operands. -/
theorem strategy_observational_equivalence_witness :
    Ops.multiply tA tB .Sequential = Ops.multiply tA tB .ParallelSIMD
    ∧ Tns.add tA tB 1000 true .Single = Tns.add tA tB 1000 true .SimdMultiThread := by
  have h := strategy_observational_equivalence tA tB rfl rfl
  exact ⟨h.1 rfl rfl rfl .Sequential .ParallelSIMD,
    (h.2.1 rfl 1000 (by norm_num) true .Single .SimdMultiThread).1⟩

/-- C2: for every output length `N` and task count `T ≥ 1`, the parallel
partitioning scheme gives task `t < T - 1` the half-open range
`[t*(N/T), (t+1)*(N/T))` and the last task `[(T-1)*(N/T), N)`; the ranges
are pairwise disjoint, their union is exactly `[0, N)`, and the last
task's range absorbs the `N mod T` remainder. -/
theorem partition_ranges_correct (N T : ℕ) (hT : 1 ≤ T) :
    (∀ t, t < T - 1 → taskStart N T t = t * (N / T)
        ∧ taskEnd N T t = (t + 1) * (N / T))
    ∧ taskStart N T (T - 1) = (T - 1) * (N / T)
    ∧ taskEnd N T (T - 1) = N
    ∧ (∀ i, i < N ↔ ∃ t, t < T ∧ taskStart N T t ≤ i ∧ i < taskEnd N T t)
    ∧ (∀ t₁ t₂ i, t₁ < T → t₂ < T →
        taskStart N T t₁ ≤ i → i < taskEnd N T t₁ →
        taskStart N T t₂ ≤ i → i < taskEnd N T t₂ → t₁ = t₂)
    ∧ taskEnd N T (T - 1) - taskStart N T (T - 1) = N / T + N % T := by
  refine ⟨?_, rfl, ?_, ?_, ?_, ?_⟩
  · intro t ht
    refine ⟨rfl, ?_⟩
    rw [taskEnd, if_neg (by omega)]
    ring
  · rw [taskEnd, if_pos rfl]
  · intro i
    constructor
    · exact fun hi => task_cover N T i hT hi
    · rintro ⟨t, ht, _, hie⟩
      exact lt_of_lt_of_le hie (taskEnd_le N T t ht)
  · intro t₁ t₂ i h₁ h₂ hs₁ he₁ hs₂ he₂
    rcases Nat.lt_trichotomy t₁ t₂ with h | h | h
    · have := task_ordered_disjoint N T t₁ t₂ h h₂
      omega
    · exact h
    · have := task_ordered_disjoint N T t₂ t₁ h h₁
      omega
  · rw [taskEnd, if_pos rfl, taskStart]
    have hdm := Nat.div_add_mod N T
    have h1 : (T - 1) * (N / T) = T * (N / T) - N / T := by
      rw [Nat.sub_mul, Nat.one_mul]
    have h2 : N / T ≤ T * (N / T) := by
      calc N / T = 1 * (N / T) := (Nat.one_mul _).symm
        _ ≤ T * (N / T) := Nat.mul_le_mul_right _ hT
    generalize hq : N / T = q at hdm h1 h2 ⊢
    generalize hr : N % T = r at hdm ⊢
    generalize hB : T * q = B at hdm h1 h2
    rw [h1]
    omega

/-- Witness for C2 at `N = 7`, `T = 3`: the last task absorbs the
remainder `7 mod 3`. -/
theorem partition_ranges_correct_witness :
    taskEnd 7 3 2 - taskStart 7 3 2 = 7 / 3 + 7 % 3 := by
  have h := (partition_ranges_correct 7 3 (by norm_num)).2.2.2.2.2
  simpa using h

/-! ## The generic Matrix family (crates/Matrix/src/matrix.rs)

`Matrix<T>` is embedded at `T = ℚ`.  The `concurrent` flag selects between
the rayon and the sequential loop of each operation; both loops of every
operation write the same per-index values, and the embedding keeps the two
iteration bounds where they differ textually (the sequential loops run over
`self.mat.len()`, the parallel ones over the freshly allocated
`rows*cols`-sized output). -/

/-- crates/Matrix/src/error.rs `MatrixError`. -/
inductive MatrixError where
  | InvalidMatrixDimension
  | InvalidRowDimension
  | InvalidColumnDimension
  | InvalidDimensions
  | IndexOutOfBounds (row col max_row max_col : ℕ)
  | DimensionMismatch (expected actual : ℕ × ℕ)
  | IncompatibleDimensions (op : String) (dim1 dim2 : ℕ × ℕ)
  | SingularMatrix
  | NotSquareMatrix (rows cols : ℕ)
  | EmptyMatrix
  | DivisionByZero
  | InvalidOperation (msg : String)
deriving DecidableEq

def opElementwiseMul : String := "element-wise multiplication"
def opMatrixMul : String := "matrix multiplication"
def opAddition : String := "addition"
def opSubtraction : String := "subtraction"

/-- matrix.rs `Matrix<T>` at `T = ℚ`: row-major buffer `mat` and the
stored prefer-parallel default `concurrent`. -/
structure Matrix where
  rows : ℕ
  cols : ℕ
  mat : List ℚ
  concurrent : Bool
deriving DecidableEq

namespace Matrix

/-- matrix.rs `Matrix::new`: rejects a zero dimension, else a zeroed
(`T::default()`) buffer with `concurrent = true`. -/
def new (rows cols : ℕ) : Except MatrixError Matrix :=
  if rows = 0 ∨ cols = 0 then .error .InvalidDimensions
  else .ok ⟨rows, cols, List.replicate (rows * cols) 0, true⟩

/-- matrix.rs `Matrix::zeros` delegates to `new`. -/
def zeros (rows cols : ℕ) : Except MatrixError Matrix := new rows cols

/-- matrix.rs `Matrix::ones`. -/
def ones (rows cols : ℕ) : Except MatrixError Matrix :=
  if rows = 0 ∨ cols = 0 then .error .InvalidDimensions
  else .ok ⟨rows, cols, List.replicate (rows * cols) 1, true⟩

def is_square (m : Matrix) : Prop := m.rows = m.cols

instance (m : Matrix) : Decidable m.is_square := by unfold is_square; infer_instance

/-- matrix.rs `transpose`: fresh `cols x rows` matrix with
`result.mat[j*rows + i] = self.mat[i*cols + j]` (both the rayon chunk loop
and the sequential loop write exactly these cells), keeping the source's
`concurrent` flag. -/
def transpose (a : Matrix) : Except MatrixError Matrix := do
  let base ← Matrix.new a.cols a.rows
  pure { base with
    concurrent := a.concurrent
    mat := (List.range (a.cols * a.rows)).map
      (fun p => a.mat.getD ((p % a.rows) * a.cols + p / a.rows) 0) }

/-- matrix.rs `Add for Matrix` (operator `+`). -/
def add (a b : Matrix) : Except MatrixError Matrix :=
  if a.rows ≠ b.rows ∨ a.cols ≠ b.cols then
    .error (.IncompatibleDimensions opAddition (a.rows, a.cols) (b.rows, b.cols))
  else do
    let base ← Matrix.new a.rows a.cols
    pure { base with
      concurrent := a.concurrent || b.concurrent
      mat := if a.concurrent || b.concurrent then
          (List.range (a.rows * a.cols)).map
            (fun i => a.mat.getD i 0 + b.mat.getD i 0)
        else
          (List.range a.mat.length).map
            (fun i => a.mat.getD i 0 + b.mat.getD i 0) }

/-- matrix.rs `Sub for Matrix` (operator `-`). -/
def sub (a b : Matrix) : Except MatrixError Matrix :=
  if a.rows ≠ b.rows ∨ a.cols ≠ b.cols then
    .error (.IncompatibleDimensions opSubtraction (a.rows, a.cols) (b.rows, b.cols))
  else do
    let base ← Matrix.new a.rows a.cols
    pure { base with
      concurrent := a.concurrent || b.concurrent
      mat := if a.concurrent || b.concurrent then
          (List.range (a.rows * a.cols)).map
            (fun i => a.mat.getD i 0 - b.mat.getD i 0)
        else
          (List.range a.mat.length).map
            (fun i => a.mat.getD i 0 - b.mat.getD i 0) }

/-- matrix.rs `dot_product` (elementwise multiplication). -/
def dot_product (a b : Matrix) : Except MatrixError Matrix :=
  if a.rows ≠ b.rows ∨ a.cols ≠ b.cols then
    .error (.IncompatibleDimensions opElementwiseMul (a.rows, a.cols) (b.rows, b.cols))
  else do
    let base ← Matrix.new a.rows a.cols
    pure { base with
      concurrent := a.concurrent || b.concurrent
      mat := if a.concurrent || b.concurrent then
          (List.range (a.rows * a.cols)).map
            (fun i => a.mat.getD i 0 * b.mat.getD i 0)
        else
          (List.range a.mat.length).map
            (fun i => a.mat.getD i 0 * b.mat.getD i 0) }

/-- matrix.rs `matrix_multiply`: requires `self.cols == other.rows`; both
the rayon row-chunk loop and the sequential triple loop write
`result[i * other.cols + j] = Σ_k self[i][k] * other[k][j]`. -/
def matrix_multiply (a b : Matrix) : Except MatrixError Matrix :=
  if a.cols ≠ b.rows then
    .error (.IncompatibleDimensions opMatrixMul (a.rows, a.cols) (b.rows, b.cols))
  else do
    let base ← Matrix.new a.rows b.cols
    pure { base with
      concurrent := a.concurrent || b.concurrent
      mat := (List.range (a.rows * b.cols)).map
        (fun p => ∑ k ∈ Finset.range a.cols,
          a.mat.getD ((p / b.cols) * a.cols + k) 0
            * b.mat.getD (k * b.cols + (p % b.cols)) 0) }

/-- matrix.rs `Div<T> for Matrix` (scalar division): rejects a zero scalar
before any output exists. -/
def div (a : Matrix) (scalar : ℚ) : Except MatrixError Matrix :=
  if scalar = 0 then .error .DivisionByZero
  else do
    let base ← Matrix.new a.rows a.cols
    pure { base with
      concurrent := a.concurrent
      mat := if a.concurrent then
          (List.range (a.rows * a.cols)).map (fun i => a.mat.getD i 0 / scalar)
        else
          (List.range a.mat.length).map (fun i => a.mat.getD i 0 / scalar) }

end Matrix

/-! ### Gaussian elimination (matrix.rs `determinant_lu`) -/

/-- The pivot search of `determinant_lu`, verbatim: starting from
`max_row = i`, row `k ∈ (i, n)` replaces the current candidate when
`mat[k*n+i] > mat[max_row*n+i] || mat[k*n+i] < T::default() - mat[max_row*n+i]`. -/
def findPivotRow (mat : List ℚ) (n i : ℕ) : ℕ :=
  (List.range' (i + 1) (n - (i + 1))).foldl
    (fun maxRow k =>
      if mat.getD (k * n + i) 0 > mat.getD (maxRow * n + i) 0
          ∨ mat.getD (k * n + i) 0 < 0 - mat.getD (maxRow * n + i) 0
      then k else maxRow) i

/-- The row swap of `determinant_lu`: rows `i` and `j` exchange their `n`
entries. -/
def swapRows (mat : List ℚ) (n i j : ℕ) : List ℚ :=
  (List.range mat.length).map (fun p =>
    if i * n ≤ p ∧ p < i * n + n then mat.getD (j * n + (p - i * n)) 0
    else if j * n ≤ p ∧ p < j * n + n then mat.getD (i * n + (p - j * n)) 0
    else mat.getD p 0)

/-- One elimination row: `factor = mat[k][i] / mat[i][i]` (read before the
updates), then `mat[k][j] -= factor * mat[i][j]` for `j ∈ [i, n)`. -/
def elimRow (mat : List ℚ) (n i k : ℕ) : List ℚ :=
  (List.range mat.length).map (fun p =>
    if k * n ≤ p ∧ p < k * n + n ∧ i ≤ p - k * n then
      mat.getD p 0
        - mat.getD (k * n + i) 0 / mat.getD (i * n + i) 0
          * mat.getD (i * n + (p - k * n)) 0
    else mat.getD p 0)

/-- Eliminate below the pivot: rows `k ∈ (i, n)` in order. -/
def elimBelow (mat : List ℚ) (n i : ℕ) : List ℚ :=
  (List.range' (i + 1) (n - (i + 1))).foldl (fun m k => elimRow m n i k) mat

/-- The working matrix after the pivot row selection and the conditional
row swap of one `determinant_lu` column step. -/
def postSwapMat (mat : List ℚ) (n i : ℕ) : List ℚ :=
  if findPivotRow mat n i ≠ i then swapRows mat n i (findPivotRow mat n i)
  else mat

/-- One column step of `determinant_lu`: select the pivot row, swap it into
position (negating the running determinant), return `Ok(0)` early — encoded
as `none` — when the post-swap pivot is exactly zero, else multiply the
pivot into the determinant and eliminate below it. -/
def luStep (n : ℕ) (st : List ℚ × ℚ) (i : ℕ) : Option (List ℚ × ℚ) :=
  if (postSwapMat st.1 n i).getD (i * n + i) 0 = 0 then none
  else some (elimBelow (postSwapMat st.1 n i) n i,
    (if findPivotRow st.1 n i ≠ i then 0 - st.2 else st.2)
      * (postSwapMat st.1 n i).getD (i * n + i) 0)

namespace Matrix

/-- matrix.rs `determinant_lu`: fold the column steps over a working copy,
determinant seeded with `T::from(1)`; an early zero-pivot exit yields
`Ok(T::default())`. -/
def determinant_lu (m : Matrix) : Except MatrixError ℚ :=
  match (List.range m.rows).foldlM (luStep m.rows) (m.mat, 1) with
  | none => .ok 0
  | some st => .ok st.2

/-- matrix.rs `determinant`: square check, closed forms for sizes 1 and 2,
Gaussian elimination beyond. -/
def determinant (m : Matrix) : Except MatrixError ℚ :=
  if m.rows ≠ m.cols then .error (.NotSquareMatrix m.rows m.cols)
  else if m.rows = 1 then .ok (m.mat.getD 0 0)
  else if m.rows = 2 then
    .ok (m.mat.getD 0 0 * m.mat.getD 3 0 - m.mat.getD 1 0 * m.mat.getD 2 0)
  else m.determinant_lu

/-- The compacted minor buffer: output cell `(ri, rj)` (flat position `p`)
reads source row `ri` when `ri < exclude_row`, else `ri + 1`, and likewise
for the column — exactly the skip-and-compact copy loop of `minor_matrix`. -/
def minorMap (m : Matrix) (exclude_row exclude_col : ℕ) : List ℚ :=
  (List.range ((m.rows - 1) * (m.cols - 1))).map (fun p =>
    let si := if p / (m.cols - 1) < exclude_row
      then p / (m.cols - 1) else p / (m.cols - 1) + 1
    let sj := if p % (m.cols - 1) < exclude_col
      then p % (m.cols - 1) else p % (m.cols - 1) + 1
    m.mat.getD (si * m.cols + sj) 0)

/-- matrix.rs `minor_matrix`: requires both dimensions `> 1`; deletes row
`exclude_row` and column `exclude_col`, compacting the remaining entries in
order. -/
def minor_matrix (m : Matrix) (exclude_row exclude_col : ℕ) :
    Except MatrixError Matrix :=
  if m.rows ≤ 1 ∨ m.cols ≤ 1 then .error .InvalidDimensions
  else do
    let base ← Matrix.new (m.rows - 1) (m.cols - 1)
    pure { base with mat := minorMap m exclude_row exclude_col }

/-- One cofactor cell: `determinant(minor(i,j))` with sign
`+` when `(i+j)` is even, else `T::default() - cofactor`. -/
def cofactor_cell (m : Matrix) (i j : ℕ) : Except MatrixError ℚ := do
  let minor ← m.minor_matrix i j
  let cof ← minor.determinant
  pure (if (i + j) % 2 = 0 then cof else 0 - cof)

/-- matrix.rs `cofactor_matrix`: square check, then every output cell gets
its signed minor determinant (sequential and rayon branches compute the
same cells), keeping the source's `concurrent` flag. -/
def cofactor_matrix (m : Matrix) : Except MatrixError Matrix :=
  if m.rows ≠ m.cols then .error (.NotSquareMatrix m.rows m.cols)
  else do
    let base ← Matrix.new m.rows m.cols
    let cells ← (List.range (m.rows * m.cols)).mapM
      (fun p => m.cofactor_cell (p / m.cols) (p % m.cols))
    pure { base with concurrent := m.concurrent, mat := cells }

end Matrix

/-! ## Claims C3, C4, C5 -/

lemma except_bind_ok {ε α β : Type} (x : α) (f : α → Except ε β) :
    (do let y ← Except.ok x; f y) = f x := rfl

lemma except_pure_eq {ε α : Type} (x : α) : (pure x : Except ε α) = .ok x := rfl

/-- Scenario operands as `Matrix` values. -/
def mA : Matrix := ⟨2, 2, [1, 2, 3, 4], false⟩

def mB : Matrix := ⟨2, 2, [5, 6, 7, 8], false⟩

/-- C3: sequential matrix multiplication of `[[1,2],[3,4]]` by
`[[5,6],[7,8]]` returns `[[19,22],[43,50]]` (row-major), through the
triple-loop `result[i][j] = Σ_k a[i][k]*b[k][j]` — for both the Tensor
engine's sequential strategy and the generic Matrix engine. -/
theorem matmul_concrete_scenario :
    Ops.multiply tA tB .Sequential = .ok ⟨[19, 22, 43, 50], [2, 2]⟩
    ∧ Matrix.matrix_multiply mA mB = .ok ⟨2, 2, [19, 22, 43, 50], false⟩ := by
  constructor
  · show Ops.multiply_sequential tA tB = _
    rw [multiply_sequential_eq tA tB rfl rfl rfl]
    norm_num [seqResult, Ops.mulCell, tA, tB, Tensor.rows, Tensor.cols,
      Tensor.rank, List.range_succ, Finset.sum_range_succ]
  · rw [Matrix.matrix_multiply]
    norm_num [mA, mB, Matrix.new, except_bind_ok, except_pure_eq,
      List.range_succ, Finset.sum_range_succ]

/-- C4: elementwise division by an array containing a zero (Tensor engine,
every compute mode) and scalar division by zero (Matrix engine) return the
`InvalidOperation("Division by zero")` / `DivisionByZero` error: no result
value is produced. -/
theorem division_by_zero_rejected (a b : Tensor) (m : Matrix) (s : ℚ)
    (hsh : a.shape = b.shape)
    (hla : a.data.length = a.shape.prod)
    (hlb : b.data.length = b.shape.prod)
    (hz : ∃ x ∈ b.data, x = 0) :
    (∀ (cs : ℕ) (avx : Bool) (mode : ComputeMode),
      Tns.divide a b cs avx mode = .error (.InvalidOperation msgDivisionByZero))
    ∧ (s = 0 → Matrix.div m s = .error .DivisionByZero) := by
  constructor
  · intro cs avx mode
    cases mode with
    | Single =>
      simp only [Tns.divide, check_same_shape_ok a b hsh]
      rw [if_pos]
      obtain ⟨x, hx, hx0⟩ := hz
      obtain ⟨j, hj, hjx⟩ := List.mem_iff_getElem.mp hx
      refine ⟨j, List.mem_range.mpr ?_, ?_⟩
      · rw [hla, hsh, ← hlb]; exact hj
      · rw [List.getD_eq_getElem?_getD, List.getElem?_eq_getElem hj, hjx]
        exact hx0
    | MultiThread =>
      simp only [Tns.divide, check_same_shape_ok a b hsh]
      rw [if_pos hz]
    | SimdMultiThread =>
      simp only [Tns.divide, check_same_shape_ok a b hsh]
      rw [if_pos hz]
  · intro hs
    rw [Matrix.div, if_pos hs]

/-- Witness for C4: `[1,2] / [1,0]` in each mode, and a scalar division of
`mA` by `0`. -/
theorem division_by_zero_rejected_witness :
    Tns.divide ⟨[1, 2], [2]⟩ ⟨[1, 0], [2]⟩ 1000 true .Single
      = .error (.InvalidOperation msgDivisionByZero)
    ∧ Matrix.div mA 0 = .error .DivisionByZero := by
  have h := division_by_zero_rejected ⟨[1, 2], [2]⟩ ⟨[1, 0], [2]⟩ mA 0
    rfl rfl rfl ⟨0, by norm_num, rfl⟩
  exact ⟨h.1 1000 true .Single, h.2 rfl⟩

/-- C5 counterexample: the Tensor factories perform no dimension
validation — `zeros`/`ones`/`fill` on a shape containing `0` construct a
tensor (with an empty buffer) instead of returning any error; their return
type is not even fallible. -/
theorem zero_dim_factories_construct :
    Tensor.zeros [0] = ⟨[], [0]⟩
    ∧ Tensor.ones [0, 3] = ⟨[], [0, 3]⟩
    ∧ Tensor.fill [2, 0] 7 = ⟨[], [2, 0]⟩ := by
  refine ⟨?_, ?_, ?_⟩ <;> rfl

/-- C5 amended: the Matrix factories (`new`/`zeros`/`ones`) return
`InvalidDimensions` when a requested dimension is `0`, but the Tensor
factories `zeros`/`ones`/`fill` construct an array unconditionally; with a
zero dimension in the shape the constructed buffer is empty. -/
theorem zero_dim_factory_validation (r c : ℕ) (h : r = 0 ∨ c = 0)
    (shape : List ℕ) (hs : 0 ∈ shape) (v : ℚ) :
    Matrix.new r c = .error .InvalidDimensions
    ∧ Matrix.zeros r c = .error .InvalidDimensions
    ∧ Matrix.ones r c = .error .InvalidDimensions
    ∧ Tensor.zeros shape = ⟨[], shape⟩
    ∧ Tensor.ones shape = ⟨[], shape⟩
    ∧ Tensor.fill shape v = ⟨[], shape⟩ := by
  have hp : shape.prod = 0 := List.prod_eq_zero hs
  refine ⟨?_, ?_, ?_, ?_, ?_, ?_⟩
  · rw [Matrix.new, if_pos h]
  · rw [Matrix.zeros, Matrix.new, if_pos h]
  · rw [Matrix.ones, if_pos h]
  · rw [Tensor.zeros, hp]; rfl
  · rw [Tensor.ones, hp]; rfl
  · rw [Tensor.fill, hp]; rfl

/-- Witness for the amended C5 at `rows = 0`, `cols = 1`, shape `[0]`. -/
theorem zero_dim_factory_validation_witness :
    Matrix.new 0 1 = .error .InvalidDimensions
    ∧ Tensor.ones [0] = ⟨[], [0]⟩ := by
  have h := zero_dim_factory_validation 0 1 (Or.inl rfl) [0]
    (List.mem_singleton.mpr rfl) 3
  exact ⟨h.1, h.2.2.2.2.1⟩

/-! ## Claims C6 and C7: the elimination pivot -/

lemma option_bind_some {α β : Type} (x : α) (f : α → Option β) :
    (do let y ← some x; f y) = f x := rfl

lemma foldlM_range_none {α : Type} (f : α → ℕ → Option α) (a st : α)
    (n i : ℕ) (hi : i < n)
    (hpre : (List.range i).foldlM f a = some st) (hstep : f st i = none) :
    (List.range n).foldlM f a = none := by
  have hsplit : List.range n = List.range i ++ (List.range (n - i)).map (i + ·) := by
    conv_lhs => rw [show n = i + (n - i) by omega]
    exact List.range_add i (n - i)
  rw [hsplit, List.foldlM_append, hpre, option_bind_some]
  obtain ⟨k, hk⟩ : ∃ k, n - i = k + 1 := ⟨n - i - 1, by omega⟩
  rw [hk, List.range_succ_eq_map, List.map_cons, List.foldlM_cons,
    Nat.add_zero, hstep]
  rfl

lemma luStep_none_iff (n : ℕ) (st : List ℚ × ℚ) (i : ℕ) :
    luStep n st i = none ↔ (postSwapMat st.1 n i).getD (i * n + i) 0 = 0 := by
  unfold luStep
  by_cases h : (postSwapMat st.1 n i).getD (i * n + i) 0 = 0
  · rw [if_pos h]
    exact iff_of_true rfl h
  · rw [if_neg h]
    exact iff_of_false (by simp) h

/-- The elimination hits an exactly-zero post-swap pivot at some step
reachable from the starting matrix. -/
def hitsZeroPivot (mat : List ℚ) (n : ℕ) : Prop :=
  ∃ i, i < n ∧ ∃ st, (List.range i).foldlM (luStep n) (mat, (1 : ℚ)) = some st
    ∧ (postSwapMat st.1 n i).getD (i * n + i) 0 = 0

/-- C6: for every square matrix of size ≥ 3, if during the Gaussian
elimination the pivot entry is exactly zero after row selection and
swapping, `determinant` returns `Ok(0)`: a defined outcome, not an error
of any kind. -/
theorem zero_pivot_determinant_ok_zero (m : Matrix) (hsq : m.is_square)
    (h3 : 3 ≤ m.rows) (hz : hitsZeroPivot m.mat m.rows) :
    m.determinant = .ok 0 := by
  obtain ⟨i, hi, st, hpre, hzz⟩ := hz
  have hstep : luStep m.rows st i = none := (luStep_none_iff _ _ _).mpr hzz
  have hall : (List.range m.rows).foldlM (luStep m.rows) (m.mat, 1) = none :=
    foldlM_range_none _ _ _ _ _ hi hpre hstep
  have hrc : m.rows = m.cols := hsq
  rw [Matrix.determinant, if_neg (not_not_intro hrc), if_neg (by omega),
    if_neg (by omega), Matrix.determinant_lu, hall]

/-- The all-zero 3-by-3 matrix. -/
def mZero3 : Matrix := ⟨3, 3, [0, 0, 0, 0, 0, 0, 0, 0, 0], false⟩

/-- Witness for C6: the all-zero 3-by-3 matrix hits a zero pivot at the
first column and its determinant is `Ok(0)`. -/
theorem zero_pivot_determinant_ok_zero_witness :
    Matrix.determinant mZero3 = .ok 0 := by
  apply zero_pivot_determinant_ok_zero mZero3 rfl (by norm_num [mZero3])
  refine ⟨0, by norm_num [mZero3], (mZero3.mat, 1), rfl, ?_⟩
  norm_num [postSwapMat, findPivotRow, swapRows, mZero3, List.range']

/-- The failing input for the pivot selection: partial pivoting on column 0
must pick row 1 (entry `-5`, magnitude 5). -/
def mPivot : Matrix := ⟨3, 3, [3, 0, 0, -5, 1, 0, 0, 0, 1], false⟩

/-- C7 (code bug): the pivot comparison
`m[k][i] > m[max][i] || m[k][i] < -m[max][i]` is not a magnitude
comparison — once the current candidate entry is negative it accepts every
later row.  On `mPivot` the code selects row 2 (entry `0`), not the
largest-magnitude row 1 (entry `-5`), and the resulting zero pivot makes
`determinant` return `Ok(0)` although the matrix is nonsingular (its
determinant is 3). -/
theorem pivot_selection_ignores_magnitude :
    findPivotRow mPivot.mat 3 0 = 2
    ∧ |mPivot.mat.getD (2 * 3 + 0) 0| < |mPivot.mat.getD (1 * 3 + 0) 0|
    ∧ Matrix.determinant mPivot = .ok 0 := by
  refine ⟨?_, ?_, ?_⟩
  · norm_num [findPivotRow, mPivot, List.range']
  · norm_num [mPivot]
  · norm_num [Matrix.determinant, Matrix.determinant_lu, mPivot,
      List.range_succ, List.foldlM, luStep, postSwapMat, findPivotRow,
      swapRows, List.range', Option.bind]

/-! ## Claim C8: the cofactor matrix -/

/-- The value inside a square matrix's (always successful) determinant. -/
def Matrix.detValue (m : Matrix) : ℚ :=
  match m.determinant with
  | .ok d => d
  | .error _ => 0

lemma determinant_isOk (m : Matrix) (hsq : m.rows = m.cols) :
    ∃ d, m.determinant = .ok d := by
  rw [Matrix.determinant, if_neg (not_not_intro hsq)]
  by_cases h1 : m.rows = 1
  · rw [if_pos h1]; exact ⟨_, rfl⟩
  · rw [if_neg h1]
    by_cases h2 : m.rows = 2
    · rw [if_pos h2]; exact ⟨_, rfl⟩
    · rw [if_neg h2, Matrix.determinant_lu]
      cases hf : (List.range m.rows).foldlM (luStep m.rows) (m.mat, 1) with
      | none => exact ⟨0, rfl⟩
      | some st => exact ⟨st.2, rfl⟩

lemma determinant_eq_detValue (m : Matrix) (hsq : m.rows = m.cols) :
    m.determinant = .ok m.detValue := by
  obtain ⟨d, hd⟩ := determinant_isOk m hsq
  have hv : m.detValue = d := by unfold Matrix.detValue; rw [hd]
  rw [hd, hv]

/-- The successful value of `minor_matrix` (fresh `concurrent = true`
buffer from `Matrix::new`, buffer `minorMap`). -/
def minorResult (m : Matrix) (er ec : ℕ) : Matrix :=
  ⟨m.rows - 1, m.cols - 1, m.minorMap er ec, true⟩

lemma minor_matrix_ok (m : Matrix) (er ec : ℕ) (hr : 1 < m.rows)
    (hc : 1 < m.cols) : m.minor_matrix er ec = .ok (minorResult m er ec) := by
  rw [Matrix.minor_matrix, if_neg (by omega), Matrix.new, if_neg (by omega),
    except_bind_ok, except_pure_eq]
  rfl

lemma cofactor_cell_ok (m : Matrix) (i j : ℕ) (hr : 1 < m.rows)
    (hc : 1 < m.cols) (hsq : m.rows = m.cols) :
    m.cofactor_cell i j = .ok (if (i + j) % 2 = 0
      then (minorResult m i j).detValue
      else 0 - (minorResult m i j).detValue) := by
  have hmsq : (minorResult m i j).rows = (minorResult m i j).cols := by
    show m.rows - 1 = m.cols - 1
    omega
  rw [Matrix.cofactor_cell, minor_matrix_ok m i j hr hc, except_bind_ok,
    determinant_eq_detValue _ hmsq, except_bind_ok, except_pure_eq]

lemma mapM_ok_map {ε : Type} (f : ℕ → Except ε ℚ) (g : ℕ → ℚ) (l : List ℕ)
    (h : ∀ x ∈ l, f x = .ok (g x)) : l.mapM f = .ok (l.map g) := by
  induction l with
  | nil => rfl
  | cons x l ih =>
    rw [List.mapM_cons, h x (by simp), except_bind_ok,
      ih (fun y hy => h y (by simp [hy])), except_bind_ok, except_pure_eq,
      List.map_cons]

/-- The successful value of `cofactor_matrix`: every cell holds its signed
minor determinant. -/
def cofactorResult (m : Matrix) : Matrix :=
  ⟨m.rows, m.cols,
   (List.range (m.rows * m.cols)).map (fun p =>
     if (p / m.cols + p % m.cols) % 2 = 0
     then (minorResult m (p / m.cols) (p % m.cols)).detValue
     else 0 - (minorResult m (p / m.cols) (p % m.cols)).detValue),
   m.concurrent⟩

lemma cofactor_matrix_ok (m : Matrix) (hsq : m.rows = m.cols)
    (hr : 1 < m.rows) : m.cofactor_matrix = .ok (cofactorResult m) := by
  have hc : 1 < m.cols := hsq ▸ hr
  rw [Matrix.cofactor_matrix, if_neg (not_not_intro hsq), Matrix.new,
    if_neg (by omega), except_bind_ok,
    mapM_ok_map _ (fun p => if (p / m.cols + p % m.cols) % 2 = 0
      then (minorResult m (p / m.cols) (p % m.cols)).detValue
      else 0 - (minorResult m (p / m.cols) (p % m.cols)).detValue) _
      (fun p _ => cofactor_cell_ok m (p / m.cols) (p % m.cols) hr hc hsq),
    except_bind_ok, except_pure_eq]
  rfl

/-- C8: the cofactor matrix of `[[1,2],[3,4]]` is `[[4,-3],[-2,1]]`; in
general, for every square matrix with both dimensions `> 1`, cell `(i,j)`
of the cofactor matrix is `determinant(minor(i,j))` with sign `+1` when
`i+j` is even and `-1` when it is odd. -/
theorem cofactor_matrix_cells :
    Matrix.cofactor_matrix mA = .ok ⟨2, 2, [4, -3, -2, 1], false⟩
    ∧ ∀ (m : Matrix) (i j : ℕ), m.rows = m.cols → 1 < m.rows →
        i < m.rows → j < m.cols →
        ∃ (r c : Matrix) (d : ℚ),
          m.cofactor_matrix = .ok r
          ∧ m.minor_matrix i j = .ok c
          ∧ c.determinant = .ok d
          ∧ r.mat.getD (i * m.cols + j) 0
            = if (i + j) % 2 = 0 then d else 0 - d := by
  constructor
  · rw [cofactor_matrix_ok mA rfl (by norm_num [mA])]
    norm_num [cofactorResult, minorResult, Matrix.minorMap, Matrix.detValue,
      Matrix.determinant, mA, List.range_succ]
  · intro m i j hsq hr hi hj
    have hc : 1 < m.cols := hsq ▸ hr
    have hcol : 0 < m.cols := by omega
    have hmsq : (minorResult m i j).rows = (minorResult m i j).cols := by
      show m.rows - 1 = m.cols - 1
      omega
    refine ⟨cofactorResult m, minorResult m i j, (minorResult m i j).detValue,
      cofactor_matrix_ok m hsq hr, minor_matrix_ok m i j hr hc,
      determinant_eq_detValue _ hmsq, ?_⟩
    have hp : i * m.cols + j < m.rows * m.cols := by
      have h1 : i * m.cols + j < (i + 1) * m.cols := by
        have hd : (i + 1) * m.cols = i * m.cols + m.cols := by ring
        omega
      have h2 : (i + 1) * m.cols ≤ m.rows * m.cols :=
        Nat.mul_le_mul_right _ (by omega)
      omega
    show ((List.range (m.rows * m.cols)).map _).getD (i * m.cols + j) 0 = _
    rw [getD_map_range _ _ _ hp]
    have hdiv : (i * m.cols + j) / m.cols = i := by
      rw [Nat.mul_comm i _, Nat.mul_add_div hcol, Nat.div_eq_of_lt hj]
      rfl
    have hmod : (i * m.cols + j) % m.cols = j := by
      rw [Nat.mul_comm i _, Nat.mul_add_mod]
      exact Nat.mod_eq_of_lt hj
    rw [hdiv, hmod]

/-- Witness for the general half of C8, at `mA` and cell `(0, 1)`. -/
theorem cofactor_matrix_cells_witness :
    ∃ (r c : Matrix) (d : ℚ),
      Matrix.cofactor_matrix mA = .ok r
      ∧ Matrix.minor_matrix mA 0 1 = .ok c
      ∧ c.determinant = .ok d
      ∧ r.mat.getD (0 * mA.cols + 1) 0 = if (0 + 1) % 2 = 0 then d else 0 - d :=
  cofactor_matrix_cells.2 mA 0 1 rfl (by norm_num [mA]) (by norm_num [mA])
    (by norm_num [mA])

/-! ## Claim C9: transpose involution -/

/-- The successful value of the matrix transpose. -/
def matrixTransposeResult (m : Matrix) : Matrix :=
  ⟨m.cols, m.rows,
   (List.range (m.cols * m.rows)).map
     (fun p => m.mat.getD ((p % m.rows) * m.cols + p / m.rows) 0),
   m.concurrent⟩

lemma matrix_transpose_ok (m : Matrix) (hr : 0 < m.rows) (hc : 0 < m.cols) :
    m.transpose = .ok (matrixTransposeResult m) := by
  rw [Matrix.transpose, Matrix.new, if_neg (by omega), except_bind_ok,
    except_pure_eq]
  rfl

lemma transpose_index_inverse (R C q : ℕ) (hq : q < C * R) :
    (q % C) * R + q / C < R * C
    ∧ ((q % C) * R + q / C) % R = q / C
    ∧ ((q % C) * R + q / C) / R = q % C := by
  have hC : 0 < C := by
    rcases Nat.eq_zero_or_pos C with h | h
    · subst h; simp at hq
    · exact h
  have hR : 0 < R := by
    rcases Nat.eq_zero_or_pos R with h | h
    · subst h; simp at hq
    · exact h
  have hqC : q / C < R :=
    (Nat.div_lt_iff_lt_mul hC).mpr (Nat.mul_comm C R ▸ hq)
  have hmC : q % C < C := Nat.mod_lt _ hC
  refine ⟨?_, ?_, ?_⟩
  · have hd : (q % C + 1) * R = (q % C) * R + R := by ring
    have h2 : (q % C + 1) * R ≤ C * R := Nat.mul_le_mul_right _ (by omega)
    have h3 : C * R = R * C := Nat.mul_comm _ _
    omega
  · rw [Nat.mul_comm (q % C) R, Nat.mul_add_mod]
    exact Nat.mod_eq_of_lt hqC
  · rw [Nat.mul_comm (q % C) R, Nat.mul_add_div hR, Nat.div_eq_of_lt hqC]
    rfl

lemma double_transpose_data (dat : List ℚ) (R C n₁ n₂ : ℕ)
    (h1 : n₁ = R * C) (h2 : n₂ = C * R) (hlen : dat.length = R * C) :
    (List.range n₂).map (fun q =>
      ((List.range n₁).map (fun p => dat.getD ((p % R) * C + p / R) 0)).getD
        ((q % C) * R + q / C) 0) = dat := by
  subst h1 h2
  have hlen' : dat.length = C * R := by rw [hlen, Nat.mul_comm]
  conv_rhs => rw [← map_range_getD dat (C * R) hlen']
  refine List.map_congr_left (fun q hq => ?_)
  have hq' := List.mem_range.mp hq
  obtain ⟨hb, hm, hd⟩ := transpose_index_inverse R C q hq'
  rw [getD_map_range _ _ _ hb, hm, hd]
  have hcomm : C * (q / C) = (q / C) * C := Nat.mul_comm _ _
  have hdm := Nat.div_add_mod q C
  congr 1
  omega

/-- C9: transposing twice returns an array equal to the original (same
shape, same elements, and for the Matrix family the same `concurrent`
flag): `transpose(transpose(A)) = A` for any 2-D array. -/
theorem transpose_involution (t : Tensor) (h2 : t.rank = 2)
    (hlen : t.data.length = t.shape.prod)
    (m : Matrix) (hr : 0 < m.rows) (hc : 0 < m.cols)
    (hml : m.mat.length = m.rows * m.cols) :
    (∃ u, t.transpose = .ok u ∧ u.transpose = .ok t)
    ∧ (∃ w, m.transpose = .ok w ∧ w.transpose = .ok m) := by
  constructor
  · refine ⟨_, Tensor.transpose_ok t h2, ?_⟩
    rw [Tensor.transpose_ok (transposeResult t) rfl]
    refine congrArg Except.ok ?_
    have hsh := Tensor.shape_pair t h2
    have hlen2 : t.data.length = t.shape.getD 0 0 * t.shape.getD 1 0 := by
      rw [hlen]
      conv_lhs => rw [hsh]
      simp
    simp only [transposeResult, List.getD_cons_zero, List.getD_cons_succ]
    rw [double_transpose_data t.data (t.shape.getD 0 0) (t.shape.getD 1 0)
      _ _ rfl rfl hlen2]
    conv_rhs => rw [show t = Tensor.mk t.data t.shape from rfl, hsh]
  · refine ⟨_, matrix_transpose_ok m hr hc, ?_⟩
    rw [matrix_transpose_ok (matrixTransposeResult m) hc hr]
    refine congrArg Except.ok ?_
    simp only [matrixTransposeResult]
    rw [double_transpose_data m.mat m.rows m.cols _ _
      (Nat.mul_comm m.cols m.rows) (Nat.mul_comm m.rows m.cols) hml]

/-- Witness for C9 at a 2-by-3 tensor and a 2-by-3 matrix. -/
theorem transpose_involution_witness :
    (∃ u, Tensor.transpose ⟨[1, 2, 3, 4, 5, 6], [2, 3]⟩ = .ok u
      ∧ u.transpose = .ok ⟨[1, 2, 3, 4, 5, 6], [2, 3]⟩)
    ∧ (∃ w, Matrix.transpose ⟨2, 3, [1, 2, 3, 4, 5, 6], false⟩ = .ok w
      ∧ w.transpose = .ok ⟨2, 3, [1, 2, 3, 4, 5, 6], false⟩) :=
  transpose_involution ⟨[1, 2, 3, 4, 5, 6], [2, 3]⟩ rfl rfl
    ⟨2, 3, [1, 2, 3, 4, 5, 6], false⟩ (by norm_num) (by norm_num) rfl

/-! ## Claim C10: the result's prefer-parallel flag -/

lemma except_bind_error {ε α β : Type} (e : ε) (f : α → Except ε β) :
    (do let y ← (Except.error e : Except ε α); f y) = .error e := rfl

/-- C10: whenever a binary Matrix operation (addition, subtraction,
elementwise dot_product, matrix_multiply) succeeds, the result's
`concurrent` flag is the logical OR of the operands' flags. -/
theorem result_concurrent_flag_or (a b r : Matrix) :
    (Matrix.add a b = .ok r → r.concurrent = (a.concurrent || b.concurrent))
    ∧ (Matrix.sub a b = .ok r → r.concurrent = (a.concurrent || b.concurrent))
    ∧ (Matrix.dot_product a b = .ok r
        → r.concurrent = (a.concurrent || b.concurrent))
    ∧ (Matrix.matrix_multiply a b = .ok r
        → r.concurrent = (a.concurrent || b.concurrent)) := by
  refine ⟨?_, ?_, ?_, ?_⟩
  · intro h
    rw [Matrix.add] at h
    by_cases hg : a.rows ≠ b.rows ∨ a.cols ≠ b.cols
    · rw [if_pos hg] at h; exact absurd h (by simp)
    · rw [if_neg hg, Matrix.new] at h
      by_cases hz : a.rows = 0 ∨ a.cols = 0
      · rw [if_pos hz, except_bind_error] at h; exact absurd h (by simp)
      · rw [if_neg hz, except_bind_ok, except_pure_eq] at h
        cases h
        rfl
  · intro h
    rw [Matrix.sub] at h
    by_cases hg : a.rows ≠ b.rows ∨ a.cols ≠ b.cols
    · rw [if_pos hg] at h; exact absurd h (by simp)
    · rw [if_neg hg, Matrix.new] at h
      by_cases hz : a.rows = 0 ∨ a.cols = 0
      · rw [if_pos hz, except_bind_error] at h; exact absurd h (by simp)
      · rw [if_neg hz, except_bind_ok, except_pure_eq] at h
        cases h
        rfl
  · intro h
    rw [Matrix.dot_product] at h
    by_cases hg : a.rows ≠ b.rows ∨ a.cols ≠ b.cols
    · rw [if_pos hg] at h; exact absurd h (by simp)
    · rw [if_neg hg, Matrix.new] at h
      by_cases hz : a.rows = 0 ∨ a.cols = 0
      · rw [if_pos hz, except_bind_error] at h; exact absurd h (by simp)
      · rw [if_neg hz, except_bind_ok, except_pure_eq] at h
        cases h
        rfl
  · intro h
    rw [Matrix.matrix_multiply] at h
    by_cases hg : a.cols ≠ b.rows
    · rw [if_pos hg] at h; exact absurd h (by simp)
    · rw [if_neg hg, Matrix.new] at h
      by_cases hz : a.rows = 0 ∨ b.cols = 0
      · rw [if_pos hz, except_bind_error] at h; exact absurd h (by simp)
      · rw [if_neg hz, except_bind_ok, except_pure_eq] at h
        cases h
        rfl

/-- Witness for C10: adding a concurrent 1-by-1 matrix to a sequential one
succeeds and the result's flag is `true || false`. -/
theorem result_concurrent_flag_or_witness :
    Matrix.add ⟨1, 1, [1], true⟩ ⟨1, 1, [2], false⟩ = .ok ⟨1, 1, [3], true⟩
    ∧ (Matrix.mk 1 1 [3] true).concurrent = (true || false) := by
  have hadd : Matrix.add ⟨1, 1, [1], true⟩ ⟨1, 1, [2], false⟩
      = .ok ⟨1, 1, [3], true⟩ := by
    norm_num [Matrix.add, Matrix.new, except_bind_ok, except_pure_eq,
      List.range_succ]
  exact ⟨hadd, (result_concurrent_flag_or _ _ _).1 hadd⟩

end Rustorch
